import Mathlib

/-
Verification development for the data-cleaning pipeline in src/clean_data.py.

Modelling conventions:
- Python strings are lists of characters (type Str below).
- Monetary amounts and exchange rates are exact rationals; the plausibility
  window, the 10 percent deviation bound and the static fallback rates are
  exact decimal constants in the source, so the idealisation is faithful to
  the decision logic under scrutiny.
- A dataframe cell that can hold a number, a string or NaN is a PVal; a cell
  holding a date is a DateVal (valid parsed date, unparsable raw text, or
  missing/NaT).
- The external CurrencyConverter collaborator is an oracle of type Hist:
  given amount, currency and date it either returns a converted amount or
  raises (HistResult.err).
- Python exceptions escaping a function are modelled explicitly:
  RowResult.raise for the per-row converter, PipeErr for the whole pass.
-/

abbrev Str : Type := List Char

/-- Calendar date, reduced to the fields the pipeline observes
(year and month, from which the quarter is derived). -/
structure Date where
  year : Int
  month : Nat
deriving DecidableEq, Repr

/-- Value of the price cell of a row: NaN/None, a number, or a
non-numeric string. -/
inductive PVal
  | missing
  | num (x : ℚ)
  | str (s : Str)
deriving DecidableEq, Repr

/-- Value of the life_span_date cell: missing (NaN/NaT), an unparsable raw
string (pd.to_datetime raises on it without errors=coerce), or a date. -/
inductive DateVal
  | missing
  | invalid (s : Str)
  | valid (d : Date)
deriving DecidableEq, Repr

/-- Outcome of one call to the historical-rate collaborator
(CurrencyConverter.convert): a converted amount, or an exception. -/
inductive HistResult
  | ok (r : ℚ)
  | err
deriving DecidableEq, Repr

/-- The historical-rate collaborator: amount, currency, as-of date. -/
abbrev Hist : Type := ℚ → Str → Date → HistResult

/-- Outcome of convert_row on one row: a returned value (None or a price),
or an exception escaping the per-row call. -/
inductive RowResult
  | ret (v : Option ℚ)
  | raise
deriving DecidableEq, Repr

def eurS : Str := ['E', 'U', 'R']

def usdS : Str := ['U', 'S', 'D']

def httpsS : Str := ['H', 'T', 'T', 'P', 'S', ':']

def directS : Str := ['d', 'i', 'r', 'e', 'c', 't']

/-- get_fallback_rates from src/clean_data.py lines 5-22: EUR value of one
unit of foreign currency, reference year 2023. -/
def get_fallback_rates : List (Str × ℚ) :=
  [ (['U', 'S', 'D'], 93/100),
    (['J', 'P', 'Y'], 70/10000),
    (['G', 'B', 'P'], 114/100),
    (['C', 'H', 'F'], 102/100),
    (['S', 'G', 'D'], 70/100),
    (['H', 'K', 'D'], 12/100),
    (['C', 'N', 'Y'], 14/100),
    (['K', 'R', 'W'], 73/100000),
    (['T', 'W', 'D'], 3/100),
    (['A', 'E', 'D'], 24/100) ]

/-- Dictionary access fallback_rates.get(c) / membership c in fallback_rates. -/
def ratesGet (c : Str) : Option ℚ := get_fallback_rates.lookup c

/-- Lines 46-57 of src/clean_data.py, the inner try block. Returns some r
when the block executes a return statement, none when control falls through
to the fallback-only attempt (either normally or because an exception was
swallowed by the bare except). The cases that raise inside the block and
are caught: the collaborator call itself (missing currency cell, NaT date
passed as conversion date, or any converter failure), and the division by a
zero fallback_price in the 10 percent deviation check (ZeroDivisionError). -/
def histStep (hist : Hist) (p : ℚ) (currency : Option Str) (dv : DateVal) : Option ℚ :=
  match currency, dv with
  | some c, DateVal.valid d =>
    match hist p c d with
    | HistResult.ok converted =>
      if 1000 ≤ converted ∧ converted ≤ 100000 then
        if p * ((ratesGet c).getD 0) = 0 then none
        else if |converted - p * ((ratesGet c).getD 0)| / (p * ((ratesGet c).getD 0)) < 1/10
          then some converted
          else none
      else none
    | HistResult.err => none
  | _, _ => none

/-- Lines 59-65 of src/clean_data.py: the fallback-only attempt. -/
def fallbackStep (p : ℚ) (currency : Option Str) : Option ℚ :=
  match currency with
  | some c =>
    match ratesGet c with
    | some rate => if 1000 ≤ p * rate ∧ p * rate ≤ 100000 then some (p * rate) else none
    | none => none
  | none => none

/-- convert_row (src/clean_data.py lines 31-69) on the three cells it reads.
Control flow notes, matching the source exactly:
- price missing: pd.isna is true, return None (line 33).
- price a non-numeric string: the comparison price <= 0 on line 33 raises
  TypeError before the local variable currency is assigned on line 37; the
  outer except handler (lines 67-69) then evaluates an f-string that reads
  the unassigned local currency, so the handler itself raises
  UnboundLocalError, which escapes convert_row (RowResult.raise).
- non-positive numeric price: return None (line 33).
- currency EUR: window check only, before any date parsing (lines 40-41).
- unparsable date: pd.to_datetime on line 44 raises, the outer handler logs
  (currency is assigned by then) and returns None.
- otherwise the historical attempt runs, then the fallback-only attempt. -/
def convertPCD (hist : Hist) (price : PVal) (currency : Option Str) (dv : DateVal) : RowResult :=
  match price with
  | PVal.missing => RowResult.ret none
  | PVal.str _ => RowResult.raise
  | PVal.num p =>
    if p ≤ 0 then RowResult.ret none
    else if currency = some eurS then
      RowResult.ret (if 1000 ≤ p ∧ p ≤ 100000 then some p else none)
    else
      match dv with
      | DateVal.invalid _ => RowResult.ret none
      | dv =>
        match histStep hist p currency dv with
        | some r => RowResult.ret (some r)
        | none => RowResult.ret (fallbackStep p currency)

def histErr : Hist := fun _ _ _ => HistResult.err

def dateA : Date := { year := 2023, month := 5 }

def dateB : Date := { year := 2024, month := 11 }

/-- Oracle answering a fixed historical result, for concrete witnesses. -/
def histOk9300 : Hist := fun _ _ _ => HistResult.ok 9300

def histOk2000 : Hist := fun _ _ _ => HistResult.ok 2000

/-- Oracle whose answer depends on the as-of date, for claim C10. -/
def histAB : Hist := fun _ _ d => if d = dateA then HistResult.ok 9300 else HistResult.ok 9500

/-- ASCII model of Python str.upper on one character. -/
def upChar (c : Char) : Char :=
  if 97 ≤ c.toNat ∧ c.toNat ≤ 122 then Char.ofNat (c.toNat - 32) else c

/-- ASCII model of the whitespace characters removed by Python str.strip. -/
def isWS (c : Char) : Bool :=
  c.toNat == 32 || c.toNat == 9 || c.toNat == 10 || c.toNat == 11 ||
    c.toNat == 12 || c.toNat == 13

/-- Python str.upper. -/
def upperL (s : Str) : Str := s.map upChar

/-- Python str.strip: leading and trailing whitespace removed. -/
def trimL (s : Str) : Str := List.rdropWhile isWS (s.dropWhile isWS)

/-- Python substring containment, pat in s. -/
def hasSub (pat s : Str) : Bool :=
  (List.range (s.length + 1)).any (fun i => decide ((s.drop i).take pat.length = pat))

/-- One dataframe row. Input columns plus the columns the pipeline adds or
drops; a dropped or never-present column is the field's missing/none value
(the pipeline only ever reads these fields after writing them, so merging
column absence with cell NaN is observationally faithful). -/
structure Row where
  reference_code : Option Str
  collection : Option Str
  currency : Option Str
  price : PVal
  life_span_date : DateVal
  original_price : PVal
  original_currency : Option Str
  conversion_method : Option Str
  price_eur : Option ℚ
  year : Option Int
  quarter : Option Nat
  is_new : PVal
  country : PVal
  price_before : PVal
  price_changed : PVal
  price_percent_change : PVal
  price_difference : PVal
deriving DecidableEq, Repr

/-- A fresh input row: derived columns absent. -/
def mkInputRow (rc coll cur : Option Str) (pr : PVal) (dv : DateVal) : Row :=
  { reference_code := rc, collection := coll, currency := cur, price := pr,
    life_span_date := dv, original_price := PVal.missing, original_currency := none,
    conversion_method := none, price_eur := none, year := none, quarter := none,
    is_new := PVal.missing, country := PVal.missing, price_before := PVal.missing,
    price_changed := PVal.missing, price_percent_change := PVal.missing,
    price_difference := PVal.missing }

/-- convert_row reads exactly the price, currency and life_span_date cells
(the reference_code is only touched by the failing handler, see convertPCD). -/
def convert_row (hist : Hist) (r : Row) : RowResult :=
  convertPCD hist r.price r.currency r.life_span_date

/-- Step 1 (line 99): keep rows whose collection does not contain "HTTPS:";
a missing collection is kept at this stage (na=False). -/
def httpsFilter (r : Row) : Bool :=
  match r.collection with
  | some s => !(hasSub httpsS s)
  | none => true

/-- Step 2 (lines 103-105): strip and uppercase currency, strip collection
and reference_code; .str methods leave missing cells missing. -/
def standardize (r : Row) : Row :=
  { r with currency := r.currency.map (fun s => upperL (trimL s)),
           collection := r.collection.map trimL,
           reference_code := r.reference_code.map trimL }

/-- Step 3 (line 109): pd.to_datetime with errors=coerce; unparsable
values become NaT (missing), parsed values stay. -/
def coerceDateRow (r : Row) : Row :=
  { r with life_span_date := match r.life_span_date with
           | DateVal.valid d => DateVal.valid d
           | _ => DateVal.missing }

/-- Step 4 (line 113): dropna on price, collection, reference_code and
life_span_date; note that a string-valued price cell is not NA. -/
def criticalPresent (r : Row) : Bool :=
  (match r.price with | PVal.missing => false | _ => true) &&
  r.collection.isSome && r.reference_code.isSome &&
  (match r.life_span_date with | DateVal.missing => false | _ => true)

def isStrPrice (r : Row) : Bool :=
  match r.price with | PVal.str _ => true | _ => false

/-- Step 5 (line 117): the comparison df_clean[price] > 0; on a string
cell the elementwise comparison raises TypeError, handled in clean_data. -/
def priceNumPos (r : Row) : Bool :=
  match r.price with | PVal.num p => decide (0 < p) | _ => false

/-- Lines 72-74: save original price and currency, tag the method. -/
def setOriginals (r : Row) : Row :=
  { r with original_price := r.price, original_currency := r.currency,
           conversion_method := some directS }

/-- An exception escaping clean_data:
- typeError: line 117 compares a string price cell with 0;
- applyError: a row conversion raised during df.apply (line 76), which is
  the UnboundLocalError of convert_row's handler;
- summaryZeroDiv: the pass ran on an empty input frame, so the summary on
  line 138 divides rows_removed by initial_rows = 0 (pandas may raise at
  line 76 even earlier on an empty frame; either way the pass raises). -/
inductive PipeErr
  | typeError
  | applyError
  | summaryZeroDiv
deriving DecidableEq, Repr

/-- Line 76: df.apply(convert_row, axis=1); any raising row aborts the
whole pass, otherwise the results become the price_eur column. -/
def applyConv (hist : Hist) (rs : List Row) : Except PipeErr (List Row) :=
  if rs.any (fun r => match convert_row hist r with
      | RowResult.raise => true
      | RowResult.ret _ => false)
  then Except.error PipeErr.applyError
  else Except.ok (rs.map (fun r =>
    { r with price_eur := match convert_row hist r with
             | RowResult.ret v => v
             | RowResult.raise => none }))

/-- convert_prices_to_eur, lines 24-85 (the statistics printing on lines
78-83 has no observable effect: its numpy division returns nan rather
than raising when a currency selection is empty). -/
def convert_prices_to_eur (hist : Hist) (rs : List Row) : Except PipeErr (List Row) :=
  applyConv hist (rs.map setOriginals)

/-- Quarter of a month as pandas computes it. -/
def quarterOf (m : Nat) : Nat := (m - 1) / 3 + 1

/-- Step 6 (lines 123-124): year and quarter from life_span_date. -/
def addTemporal (r : Row) : Row :=
  match r.life_span_date with
  | DateVal.valid d => { r with year := some d.year, quarter := some (quarterOf d.month) }
  | _ => { r with year := none, quarter := none }

/-- Step 7 (lines 128-132): drop the six unneeded columns, absence ignored. -/
def dropCols (r : Row) : Row :=
  { r with is_new := PVal.missing, country := PVal.missing,
           price_before := PVal.missing, price_changed := PVal.missing,
           price_percent_change := PVal.missing, price_difference := PVal.missing }

/-- Steps 1-4 of clean_data. -/
def stage4 (df : List Row) : List Row :=
  (((df.filter httpsFilter).map standardize).map coerceDateRow).filter criticalPresent

/-- clean_data, lines 87-141. The final summary always runs (line 138) and
divides by the input length, so an empty input makes the pass raise. -/
def clean_data (hist : Hist) (df : List Row) : Except PipeErr (List Row) :=
  if (stage4 df).any isStrPrice then Except.error PipeErr.typeError
  else
    match convert_prices_to_eur hist ((stage4 df).filter priceNumPos) with
    | Except.error e => Except.error e
    | Except.ok s7 =>
      if df.isEmpty then Except.error PipeErr.summaryZeroDiv
      else Except.ok (((s7.filter (fun r => r.price_eur.isSome)).map addTemporal).map dropCols)

/-- The shape of every row of a finished clean_data output: all filters
are satisfied, every normalisation and derivation step is a fixpoint, and
price_eur is exactly what convert_row returns for the row. -/
def RowInv (hist : Hist) (r : Row) : Prop :=
  httpsFilter r = true ∧
  standardize r = r ∧
  coerceDateRow r = r ∧
  criticalPresent r = true ∧
  priceNumPos r = true ∧
  isStrPrice r = false ∧
  setOriginals r = r ∧
  convert_row hist r = RowResult.ret r.price_eur ∧
  r.price_eur.isSome = true ∧
  addTemporal r = r ∧
  dropCols r = r

/-- Auxiliary: the price_eur value written by df.apply for one row. -/
def applyEur (hist : Hist) (r : Row) : Option ℚ :=
  match convert_row hist r with
  | RowResult.ret v => v
  | RowResult.raise => none

def inWindow (q : ℚ) : Bool := decide (1000 ≤ q) && decide (q ≤ 100000)

/-- The life_span_date cell holds a parsed date. -/
def validDateCell (r : Row) : Bool :=
  match r.life_span_date with
  | DateVal.valid _ => true
  | _ => false

def rowP1 : Row := mkInputRow (some ['R']) (some ['A']) (some usdS) (PVal.num 1)
  (DateVal.valid dateA)

def rowW : Row := mkInputRow (some ['R']) (some ['A']) (some usdS) (PVal.num 10000)
  (DateVal.valid dateA)

/-- The output row clean_data produces from rowW under histErr. -/
def rowWOut : Row :=
  { reference_code := some ['R'], collection := some ['A'], currency := some usdS,
    price := PVal.num 10000, life_span_date := DateVal.valid dateA,
    original_price := PVal.num 10000, original_currency := some usdS,
    conversion_method := some directS, price_eur := some 9300,
    year := some 2023, quarter := some 2,
    is_new := PVal.missing, country := PVal.missing, price_before := PVal.missing,
    price_changed := PVal.missing, price_percent_change := PVal.missing,
    price_difference := PVal.missing }

theorem ratesGet_usd : ratesGet usdS = some (93/100) := rfl

theorem ratesGet_xyz : ratesGet ['X', 'Y', 'Z'] = none := rfl

theorem usd_ne_eur : ¬ (some usdS = some eurS) := by decide

theorem usd_ne_eur2 : ¬ (usdS = eurS) := by decide

/-- C1: for a row with a positive numeric price and a non-EUR currency on
which the historical lookup produces a result r, convert_row returns r as
price_eur exactly when r lies in the window [1000, 100000] and its relative
deviation from the fallback-computed price p * fallback_rate is strictly
below 10 percent (which requires that fallback price to be nonzero, since a
zero denominator raises ZeroDivisionError into the bare except); in every
other case the historical result is discarded and the independent
fallback-only computation of step 4 decides the outcome. -/
theorem claim1_historical_gate (hist : Hist) (p r : ℚ) (c : Str) (d : Date)
    (hp : 0 < p) (hc : c ≠ eurS) (hh : hist p c d = HistResult.ok r) :
    convertPCD hist (PVal.num p) (some c) (DateVal.valid d) =
      RowResult.ret
        (if (1000 ≤ r ∧ r ≤ 100000) ∧
            (p * ((ratesGet c).getD 0) ≠ 0 ∧
             |r - p * ((ratesGet c).getD 0)| / (p * ((ratesGet c).getD 0)) < 1/10)
         then some r
         else fallbackStep p (some c)) := by
  have hps : ¬ p ≤ 0 := not_le.mpr hp
  have hcs : ¬ (some c = some eurS) := by simpa using hc
  simp only [convertPCD, if_neg hps, if_neg hcs, histStep, hh]
  by_cases h1 : (1000:ℚ) ≤ r ∧ r ≤ 100000
  · by_cases h2 : p * ((ratesGet c).getD 0) = 0
    · rw [if_pos h1, if_pos h2, if_neg (fun hx => hx.2.1 h2)]
    · by_cases h3 : |r - p * ((ratesGet c).getD 0)| / (p * ((ratesGet c).getD 0)) < 1/10
      · rw [if_pos h1, if_neg h2, if_pos h3, if_pos ⟨h1, h2, h3⟩]
      · rw [if_pos h1, if_neg h2, if_neg h3, if_neg (fun hx => h3 hx.2.2)]
  · rw [if_neg h1, if_neg (fun hx => h1 hx.1)]

/-- Witness for C1 at a concrete accepted input: 10000 USD, historical
result 9300, fallback price 9300, deviation 0. -/
theorem claim1_historical_gate_witness :
    convertPCD histOk9300 (PVal.num 10000) (some usdS) (DateVal.valid dateA) =
      RowResult.ret (some 9300) := by
  have h := claim1_historical_gate histOk9300 10000 9300 usdS dateA (by norm_num)
    (by decide) rfl
  rw [h]
  rw [ratesGet_usd]
  norm_num [fallbackStep, ratesGet_usd]

/-- C2: the except handler of convert_row recovers an error raised after
the local variable currency is assigned (first conjunct: an unparsable date
raised by pd.to_datetime is logged and the row yields None), but an error
raised before that assignment - a non-numeric price failing the comparison
on line 33 - reaches the handler whose log f-string reads the unassigned
local, so the handler itself raises UnboundLocalError, which escapes the
per-row call (second conjunct). The claim that no exception ever
propagates is therefore false on the code. -/
theorem claim2_handler_unbound_local :
    convertPCD histErr (PVal.num 10000) (some ['X', 'X', 'X'])
        (DateVal.invalid ['b', 'a', 'd']) = RowResult.ret none ∧
    convertPCD histErr (PVal.str ['a', 'b', 'c']) (some usdS) (DateVal.valid dateA) =
      RowResult.raise := by
  constructor
  · norm_num [convertPCD, eurS]
    try decide
  · rfl

/-- C3: the input-validation behaviour of convert_row: missing price and
non-positive prices yield None, but a non-numeric (string) price does not -
it makes the per-row call raise (see C2), contradicting the claim that it
too yields "no conversion". -/
theorem claim3_input_validation :
    convertPCD histErr PVal.missing (some usdS) (DateVal.valid dateA) = RowResult.ret none ∧
    convertPCD histErr (PVal.num 0) (some usdS) (DateVal.valid dateA) = RowResult.ret none ∧
    convertPCD histErr (PVal.num (-500)) (some usdS) (DateVal.valid dateA) =
      RowResult.ret none ∧
    convertPCD histErr (PVal.str ['N', '/', 'A']) (some usdS) (DateVal.valid dateA) =
      RowResult.raise := by
  refine ⟨rfl, ?_, ?_, rfl⟩
  · norm_num [convertPCD]
  · norm_num [convertPCD]

/-- C4: when the fallback-computed price p * fallback_rate.get(c, 0) is
exactly zero (in particular whenever the currency is absent from the
fallback table), the 10 percent cross-check cannot be computed: the
division by zero raises ZeroDivisionError, the bare except swallows it (no
error is observable), the historical result is rejected whatever it was,
and the fallback-only attempt of step 4 decides the outcome. -/
theorem claim4_zero_fallback_guard (hist : Hist) (p r : ℚ) (c : Str) (d : Date)
    (hp : 0 < p) (hc : c ≠ eurS) (hh : hist p c d = HistResult.ok r)
    (hfb : p * ((ratesGet c).getD 0) = 0) :
    convertPCD hist (PVal.num p) (some c) (DateVal.valid d) =
      RowResult.ret (fallbackStep p (some c)) := by
  have hps : ¬ p ≤ 0 := not_le.mpr hp
  have hcs : ¬ (some c = some eurS) := by simpa using hc
  simp only [convertPCD, if_neg hps, if_neg hcs, histStep, hh]
  by_cases h1 : (1000:ℚ) ≤ r ∧ r ≤ 100000
  · simp [h1, hfb]
  · simp [h1]

/-- Witness for C4: currency XYZ is not in the fallback table, so the
fallback price is 5000 * 0 = 0; the in-window historical result 2000 is
rejected and the fallback-only attempt returns None. -/
theorem claim4_zero_fallback_guard_witness :
    convertPCD histOk2000 (PVal.num 5000) (some ['X', 'Y', 'Z']) (DateVal.valid dateA) =
      RowResult.ret none := by
  have h := claim4_zero_fallback_guard histOk2000 5000 2000 ['X', 'Y', 'Z'] dateA
    (by norm_num) (by decide) rfl
    (by rw [ratesGet_xyz]; norm_num)
  rw [h]
  simp [fallbackStep, ratesGet_xyz]

/-- C5: when the historical-rate collaborator raises, the bare except
swallows the error and the fallback-only path of step 4 decides the
outcome. -/
theorem claim5_collaborator_error_swallowed (hist : Hist) (p : ℚ) (c : Str) (d : Date)
    (hp : 0 < p) (hc : c ≠ eurS) (hh : hist p c d = HistResult.err) :
    convertPCD hist (PVal.num p) (some c) (DateVal.valid d) =
      RowResult.ret (fallbackStep p (some c)) := by
  have hps : ¬ p ≤ 0 := not_le.mpr hp
  have hcs : ¬ (some c = some eurS) := by simpa using hc
  simp only [convertPCD, if_neg hps, if_neg hcs, histStep, hh]

/-- Witness for C5 at the spec's concrete numbers: price 10000 USD with a
raising lookup gives price_eur = 10000 * 0.93 = 9300, inside the window,
so the row is retained. -/
theorem claim5_collaborator_error_swallowed_witness :
    convertPCD histErr (PVal.num 10000) (some usdS) (DateVal.valid dateA) =
      RowResult.ret (some 9300) := by
  have h := claim5_collaborator_error_swallowed histErr 10000 usdS dateA
    (by norm_num) (by decide) rfl
  rw [h]
  norm_num [fallbackStep, ratesGet_usd]

/-- C6: a row whose currency is EUR with positive numeric price keeps its
price unchanged exactly when the price lies in [1000, 100000], and is
rejected otherwise; the result is the same for every oracle and every date
cell (even an unparsable one), so neither the historical lookup nor the
fallback cross-check takes part. -/
theorem claim6_eur_window (hist : Hist) (p : ℚ) (dv : DateVal) (hp : 0 < p) :
    convertPCD hist (PVal.num p) (some eurS) dv =
      RowResult.ret (if 1000 ≤ p ∧ p ≤ 100000 then some p else none) := by
  have hps : ¬ p ≤ 0 := not_le.mpr hp
  simp [convertPCD, if_neg hps]

/-- Witness for C6: an in-window EUR price is kept unchanged even with an
unparsable date and an always-failing oracle. -/
theorem claim6_eur_window_witness :
    convertPCD histErr (PVal.num 2000) (some eurS) (DateVal.invalid ['b', 'a', 'd']) =
      RowResult.ret (some 2000) := by
  have h := claim6_eur_window histErr 2000 (DateVal.invalid ['b', 'a', 'd']) (by norm_num)
  rw [h]
  norm_num

/-- C10: the as-of date handed to the historical-rate collaborator is the
row's own parsed life_span_date: replacing the oracle by one that only ever
answers as of that date changes nothing (first conjunct); and two rows
agreeing on price and currency but differing in life_span_date can produce
different conversion results (remaining conjuncts, with an oracle whose
answer depends on the date). -/
theorem claim10_date_dependence :
    (∀ (hist : Hist) (price : PVal) (currency : Option Str) (d : Date),
        convertPCD hist price currency (DateVal.valid d) =
          convertPCD (fun a c _ => hist a c d) price currency (DateVal.valid d)) ∧
    convertPCD histAB (PVal.num 10000) (some usdS) (DateVal.valid dateA) =
      RowResult.ret (some 9300) ∧
    convertPCD histAB (PVal.num 10000) (some usdS) (DateVal.valid dateB) =
      RowResult.ret (some 9500) ∧
    RowResult.ret (some (9300 : ℚ)) ≠ RowResult.ret (some (9500 : ℚ)) := by
  refine ⟨?_, ?_, ?_, ?_⟩
  · intro hist price currency d
    cases price with
    | missing => rfl
    | str s => rfl
    | num p =>
      cases currency with
      | none => rfl
      | some c => rfl
  · norm_num [convertPCD, histStep, histAB, fallbackStep, ratesGet_usd, if_neg usd_ne_eur,
      dateA, dateB]
    decide
  · norm_num [convertPCD, histStep, histAB, fallbackStep, ratesGet_usd, if_neg usd_ne_eur,
      dateA, dateB]
    decide
  · simp only [ne_eq, RowResult.ret.injEq, Option.some.injEq]
    norm_num

/-- Witness for C10, extracting the concrete date-sensitive evaluation. -/
theorem claim10_date_dependence_witness :
    convertPCD histAB (PVal.num 10000) (some usdS) (DateVal.valid dateB) =
      RowResult.ret (some 9500) := claim10_date_dependence.2.2.1

theorem upChar_upChar (c : Char) : upChar (upChar c) = upChar c := by
  by_cases h : 97 ≤ c.toNat ∧ c.toNat ≤ 122
  · have e : upChar c = Char.ofNat (c.toNat - 32) := by rw [upChar, if_pos h]
    rw [e]
    obtain ⟨h1, h2⟩ := h
    revert h1 h2
    generalize c.toNat = n
    intro h1 h2
    interval_cases n <;> decide
  · have e : upChar c = c := by rw [upChar, if_neg h]
    rw [e]
    exact e

theorem isWS_upChar (c : Char) : isWS (upChar c) = isWS c := by
  by_cases h : 97 ≤ c.toNat ∧ c.toNat ≤ 122
  · have e : upChar c = Char.ofNat (c.toNat - 32) := by rw [upChar, if_pos h]
    rw [e]
    simp only [isWS]
    obtain ⟨h1, h2⟩ := h
    revert h1 h2
    generalize c.toNat = n
    intro h1 h2
    interval_cases n <;> decide
  · have e : upChar c = c := by rw [upChar, if_neg h]
    rw [e]

theorem upperL_upperL (s : Str) : upperL (upperL s) = upperL s := by
  unfold upperL
  rw [List.map_map]
  have h : upChar ∘ upChar = upChar := funext upChar_upChar
  rw [h]

theorem dropWhile_isWS_upperL (s : Str) :
    List.dropWhile isWS (upperL s) = upperL (List.dropWhile isWS s) := by
  unfold upperL
  rw [List.dropWhile_map]
  have h : (isWS ∘ upChar) = isWS := funext isWS_upChar
  rw [h]

theorem trimL_upperL (s : Str) : trimL (upperL s) = upperL (trimL s) := by
  unfold trimL
  rw [dropWhile_isWS_upperL]
  unfold List.rdropWhile
  unfold upperL
  rw [← List.map_reverse, List.dropWhile_map]
  have h : (isWS ∘ upChar) = isWS := funext isWS_upChar
  rw [h, ← List.map_reverse]

theorem dropWhile_app_self {p : Char → Bool} {t z : Str}
    (h : List.dropWhile p (t ++ z) = t ++ z) : List.dropWhile p t = t := by
  cases t with
  | nil => rfl
  | cons a t2 =>
    have ha : p a = false := by
      by_cases hp : p a = true
      · exfalso
        rw [List.cons_append, List.dropWhile_cons, if_pos hp] at h
        obtain ⟨w, hw⟩ := List.dropWhile_suffix (l := t2 ++ z) p
        rw [h] at hw
        have hlen := congrArg List.length hw
        simp [List.length_append] at hlen
        omega
      · simpa using hp
    simp [List.dropWhile_cons, ha]

theorem trimL_trimL (s : Str) : trimL (trimL s) = trimL s := by
  unfold trimL
  have h1 : List.dropWhile isWS (List.rdropWhile isWS (List.dropWhile isWS s)) =
      List.rdropWhile isWS (List.dropWhile isWS s) := by
    obtain ⟨z, hz⟩ := List.rdropWhile_prefix isWS (List.dropWhile isWS s)
    apply dropWhile_app_self (z := z)
    rw [hz]
    exact List.dropWhile_idempotent isWS s
  rw [h1, List.rdropWhile_idempotent]

theorem trimL_app (s : Str) : ∃ a b, a ++ trimL s ++ b = s := by
  obtain ⟨z, hz⟩ := List.rdropWhile_prefix isWS (List.dropWhile isWS s)
  obtain ⟨w, hw⟩ := List.dropWhile_suffix (l := s) isWS
  refine ⟨w, z, ?_⟩
  unfold trimL
  rw [List.append_assoc, hz, hw]

theorem hasSub_intro (pat a b s : Str) (h : a ++ pat ++ b = s) : hasSub pat s = true := by
  unfold hasSub
  rw [List.any_eq_true]
  refine ⟨a.length, ?_, ?_⟩
  · rw [List.mem_range]
    have hlen := congrArg List.length h
    simp [List.length_append] at hlen
    omega
  · have hd : s.drop a.length = pat ++ b := by
      rw [← h, List.append_assoc]
      exact List.drop_left a (pat ++ b)
    rw [hd, List.take_left]
    simp

theorem hasSub_elim {pat s : Str} (h : hasSub pat s = true) : ∃ a b, a ++ pat ++ b = s := by
  unfold hasSub at h
  rw [List.any_eq_true] at h
  obtain ⟨i, hi, hp⟩ := h
  rw [decide_eq_true_eq] at hp
  refine ⟨s.take i, s.drop (i + pat.length), ?_⟩
  have h2 : List.take pat.length (s.drop i) ++ List.drop pat.length (s.drop i) = s.drop i :=
    List.take_append_drop _ _
  have h3 : List.drop pat.length (s.drop i) = s.drop (i + pat.length) := by
    rw [List.drop_drop, Nat.add_comm]
  rw [hp, h3] at h2
  calc s.take i ++ pat ++ s.drop (i + pat.length)
      = s.take i ++ (pat ++ s.drop (i + pat.length)) := by rw [List.append_assoc]
    _ = s.take i ++ s.drop i := by rw [h2]
    _ = s := List.take_append_drop i s

theorem hasSub_trimL {pat s : Str} (h : hasSub pat (trimL s) = true) : hasSub pat s = true := by
  obtain ⟨a, b, hab⟩ := hasSub_elim h
  obtain ⟨x, y, hxy⟩ := trimL_app s
  refine hasSub_intro pat (x ++ a) (b ++ y) s ?_
  rw [← hxy, ← hab]
  simp [List.append_assoc]

theorem upperTrim_fix (s : Str) :
    upperL (trimL (upperL (trimL s))) = upperL (trimL s) := by
  rw [trimL_upperL, trimL_trimL, upperL_upperL]

theorem histStep_some {hist : Hist} {p : ℚ} {cur : Option Str} {dv : DateVal} {q : ℚ}
    (h : histStep hist p cur dv = some q) : 1000 ≤ q ∧ q ≤ 100000 := by
  unfold histStep at h
  split at h
  · split at h
    · rename_i converted heq
      split_ifs at h with h1 h2 h3
      obtain rfl := Option.some.inj h
      exact h1
    · exact Option.noConfusion h
  · exact Option.noConfusion h

theorem fallbackStep_some {p : ℚ} {cur : Option Str} {q : ℚ}
    (h : fallbackStep p cur = some q) : 1000 ≤ q ∧ q ≤ 100000 := by
  unfold fallbackStep at h
  split at h
  · split at h
    · rename_i rate heq
      split_ifs at h with h1
      obtain rfl := Option.some.inj h
      exact h1
    · exact Option.noConfusion h
  · exact Option.noConfusion h

theorem retStep_window {hist : Hist} {p : ℚ} {cur : Option Str} {dv : DateVal} {q : ℚ}
    (h : (match histStep hist p cur dv with
          | some r => RowResult.ret (some r)
          | none => RowResult.ret (fallbackStep p cur)) = RowResult.ret (some q)) :
    1000 ≤ q ∧ q ≤ 100000 := by
  split at h
  · rename_i r hs
    simp only [RowResult.ret.injEq, Option.some.injEq] at h
    subst h
    exact histStep_some hs
  · rename_i hs
    simp only [RowResult.ret.injEq] at h
    exact fallbackStep_some h

/-- Every price the converter accepts lies in the plausibility window. -/
theorem convertPCD_window {hist : Hist} {pr : PVal} {cur : Option Str} {dv : DateVal} {q : ℚ}
    (h : convertPCD hist pr cur dv = RowResult.ret (some q)) : 1000 ≤ q ∧ q ≤ 100000 := by
  unfold convertPCD at h
  split at h
  · exact Option.noConfusion (RowResult.ret.inj h)
  · exact RowResult.noConfusion h
  · rename_i p
    split_ifs at h with hp hc h1
    · exact Option.noConfusion (RowResult.ret.inj h)
    · obtain rfl := Option.some.inj (RowResult.ret.inj h)
      exact h1
    · exact Option.noConfusion (RowResult.ret.inj h)
    · split at h
      · exact Option.noConfusion (RowResult.ret.inj h)
      · exact retStep_window h

/-- A numeric price never makes convert_row raise. -/
theorem convertPCD_num_ret (hist : Hist) (p : ℚ) (cur : Option Str) (dv : DateVal) :
    ∃ v, convertPCD hist (PVal.num p) cur dv = RowResult.ret v := by
  simp only [convertPCD]
  split_ifs with hp hc h1
  · exact ⟨none, rfl⟩
  · exact ⟨_, rfl⟩
  · exact ⟨_, rfl⟩
  · split
    · exact ⟨none, rfl⟩
    · split
      · exact ⟨_, rfl⟩
      · exact ⟨_, rfl⟩

/-- A row with a missing currency cell never converts: the EUR test fails,
the collaborator call raises on the NaN currency, and the NaN is not a key
of the fallback table. -/
theorem convertPCD_no_currency (hist : Hist) (p : ℚ) (dv : DateVal) :
    convertPCD hist (PVal.num p) none dv = RowResult.ret none := by
  simp only [convertPCD]
  have hc : ¬ ((none : Option Str) = some eurS) := by simp
  rw [if_neg hc]
  split_ifs with hp
  · rfl
  · split
    · rfl
    · rfl

theorem map_fix {α : Type} {f : α → α} {l : List α} (h : ∀ a ∈ l, f a = a) :
    l.map f = l := by
  induction l with
  | nil => rfl
  | cons a t ih =>
    rw [List.map_cons, h a (List.mem_cons_self a t),
      ih (fun b hb => h b (List.mem_cons_of_mem a hb))]

/-- Running clean_data on a nonempty list of rows that all satisfy RowInv
returns the list unchanged. -/
theorem clean_fixpoint (hist : Hist) (out : List Row)
    (hinv : ∀ r ∈ out, RowInv hist r) (hne : out ≠ []) :
    clean_data hist out = Except.ok out := by
  have hs4 : stage4 out = out := by
    unfold stage4
    rw [List.filter_eq_self.mpr (fun r hr => (hinv r hr).1)]
    rw [map_fix (fun r hr => (hinv r hr).2.1)]
    rw [map_fix (fun r hr => (hinv r hr).2.2.1)]
    exact List.filter_eq_self.mpr (fun r hr => (hinv r hr).2.2.2.1)
  have hstr : (stage4 out).any isStrPrice = false := by
    rw [hs4, List.any_eq_false]
    intro r hr
    simp [(hinv r hr).2.2.2.2.2.1]
  have hpos : (stage4 out).filter priceNumPos = out := by
    rw [hs4]
    exact List.filter_eq_self.mpr (fun r hr => (hinv r hr).2.2.2.2.1)
  have hso : out.map setOriginals = out := map_fix (fun r hr => (hinv r hr).2.2.2.2.2.2.1)
  have happ : applyConv hist out = Except.ok out := by
    unfold applyConv
    have hany : (out.any fun r => match convert_row hist r with
        | RowResult.raise => true
        | RowResult.ret _ => false) = false := by
      rw [List.any_eq_false]
      intro r hr
      rw [(hinv r hr).2.2.2.2.2.2.2.1]
      simp
    rw [hany]
    simp only [Bool.false_eq_true, if_false]
    congr 1
    apply map_fix
    intro r hr
    rw [(hinv r hr).2.2.2.2.2.2.2.1]
  have hcv : convert_prices_to_eur hist ((stage4 out).filter priceNumPos) = Except.ok out := by
    rw [hpos]
    unfold convert_prices_to_eur
    rw [hso]
    exact happ
  have hie : out.isEmpty = false := by
    cases out with
    | nil => exact absurd rfl hne
    | cons a t => rfl
  have hpe : out.filter (fun r => r.price_eur.isSome) = out :=
    List.filter_eq_self.mpr (fun r hr => (hinv r hr).2.2.2.2.2.2.2.2.1)
  have hat : out.map addTemporal = out := map_fix (fun r hr => (hinv r hr).2.2.2.2.2.2.2.2.2.1)
  have hdc : out.map dropCols = out := map_fix (fun r hr => (hinv r hr).2.2.2.2.2.2.2.2.2.2)
  unfold clean_data
  rw [hstr]
  simp only [Bool.false_eq_true, if_false]
  rw [hcv]
  rw [hie]
  simp only [Bool.false_eq_true, if_false]
  rw [hpe, hat, hdc]

/-- Rebuilding RowInv for the row produced by the pipeline from an input
row r1 that passed every filter. -/
theorem rowInv_of_parts {hist : Hist} {r1 : Row}
    (hhttps : httpsFilter r1 = true)
    (hcrit : criticalPresent (coerceDateRow (standardize r1)) = true)
    (hppos : priceNumPos (coerceDateRow (standardize r1)) = true)
    (hpe : (applyEur hist (setOriginals (coerceDateRow (standardize r1)))).isSome = true) :
    RowInv hist (dropCols (addTemporal
      { setOriginals (coerceDateRow (standardize r1)) with
        price_eur := applyEur hist (setOriginals (coerceDateRow (standardize r1))) })) := by
  obtain ⟨rc1, coll1, cur1, pr1, dv1, op1, oc1, cm1, pe1, y1, q1, n1, co1, pb1, pc1, pp1, pd1⟩
    := r1
  cases coll1 with
  | none => simp [criticalPresent, standardize, coerceDateRow] at hcrit
  | some c0 =>
  cases rc1 with
  | none => simp [criticalPresent, standardize, coerceDateRow] at hcrit
  | some rc0 =>
  cases dv1 with
  | missing => simp [criticalPresent, standardize, coerceDateRow] at hcrit
  | invalid s => simp [criticalPresent, standardize, coerceDateRow] at hcrit
  | valid d =>
  cases pr1 with
  | missing => simp [priceNumPos, standardize, coerceDateRow] at hppos
  | str s => simp [priceNumPos, standardize, coerceDateRow] at hppos
  | num p =>
  have hp : 0 < p := by
    have := hppos
    simp only [priceNumPos, standardize, coerceDateRow] at this
    exact of_decide_eq_true this
  cases cur1 with
  | none =>
    simp [applyEur, convert_row, standardize, coerceDateRow, setOriginals,
      convertPCD_no_currency] at hpe
  | some u0 =>
  obtain ⟨w, hw⟩ := convertPCD_num_ret hist p (some (upperL (trimL u0))) (DateVal.valid d)
  simp only [standardize, coerceDateRow, setOriginals, Option.map_some'] at hpe ⊢
  simp only [applyEur, convert_row, hw] at hpe ⊢
  simp only [addTemporal, dropCols]
  have hsub : hasSub httpsS (trimL c0) = false := by
    simp only [httpsFilter, Bool.not_eq_true'] at hhttps
    cases hxx : hasSub httpsS (trimL c0) with
    | false => rfl
    | true => exact absurd (hasSub_trimL hxx) (by simp [hhttps])
  refine ⟨?_, ?_, ?_, ?_, ?_, ?_, ?_, ?_, ?_, ?_, ?_⟩
  · simp [httpsFilter, hsub]
  · simp only [standardize, Option.map_some']
    rw [trimL_trimL, trimL_trimL, upperTrim_fix]
  · simp only [coerceDateRow]
  · simp [criticalPresent]
  · simp [priceNumPos, hp]
  · rfl
  · simp only [setOriginals]
  · simp only [convert_row, hw]
  · exact hpe
  · simp only [addTemporal]
  · simp only [dropCols]

theorem clean_out_inv {hist : Hist} {df out : List Row}
    (h : clean_data hist df = Except.ok out) : ∀ r ∈ out, RowInv hist r := by
  intro r hr
  unfold clean_data at h
  by_cases hstr : (stage4 df).any isStrPrice
  · rw [if_pos hstr] at h
    exact absurd h (by simp)
  · rw [if_neg hstr] at h
    split at h
    · exact absurd h (by simp)
    · rename_i s7 hcv
      by_cases hemp : df.isEmpty
      · rw [if_pos hemp] at h
        exact absurd h (by simp)
      · rw [if_neg hemp] at h
        have hout : ((s7.filter (fun r => r.price_eur.isSome)).map addTemporal).map dropCols
            = out := Except.ok.inj h
        unfold convert_prices_to_eur applyConv at hcv
        by_cases hany : (((stage4 df).filter priceNumPos).map setOriginals).any
            (fun r => match convert_row hist r with
              | RowResult.raise => true
              | RowResult.ret _ => false)
        · rw [if_pos hany] at hcv
          exact absurd hcv (by simp)
        · rw [if_neg hany] at hcv
          have hs7 : (((stage4 df).filter priceNumPos).map setOriginals).map
              (fun r => { r with price_eur := applyEur hist r }) = s7 := by
            have := Except.ok.inj hcv
            rw [← this]
            rfl
          subst hs7
          subst hout
          rw [List.mem_map] at hr
          obtain ⟨r9, hr9, rfl⟩ := hr
          rw [List.mem_map] at hr9
          obtain ⟨r8, hr8, rfl⟩ := hr9
          rw [List.mem_filter] at hr8
          obtain ⟨hr8m, hpe⟩ := hr8
          rw [List.mem_map] at hr8m
          obtain ⟨r6, hr6, rfl⟩ := hr8m
          rw [List.mem_map] at hr6
          obtain ⟨r5, hr5, rfl⟩ := hr6
          rw [List.mem_filter] at hr5
          obtain ⟨hr5m, hppos⟩ := hr5
          unfold stage4 at hr5m
          rw [List.mem_filter] at hr5m
          obtain ⟨hr5m, hcrit⟩ := hr5m
          rw [List.mem_map] at hr5m
          obtain ⟨r2, hr2, rfl⟩ := hr5m
          rw [List.mem_map] at hr2
          obtain ⟨r1, hr1, rfl⟩ := hr2
          rw [List.mem_filter] at hr1
          obtain ⟨hr1m, hhttps⟩ := hr1
          exact rowInv_of_parts hhttps hcrit hppos hpe

/-- C7: every record surviving clean_data has price_eur present and inside
[1000, 100000], a strictly positive numeric price, and a valid parsed
life_span_date. -/
theorem claim7_output_invariants (hist : Hist) (df out : List Row)
    (h : clean_data hist df = Except.ok out) :
    ∀ r ∈ out, r.price_eur.isSome = true ∧
      inWindow ((r.price_eur).getD 0) = true ∧
      priceNumPos r = true ∧
      validDateCell r = true := by
  intro r hr
  obtain ⟨_, _, hcd, hcrit, hpos, _, _, hconv, hsome, _, _⟩ := clean_out_inv h r hr
  refine ⟨hsome, ?_, hpos, ?_⟩
  · obtain ⟨q, hq⟩ := Option.isSome_iff_exists.mp hsome
    rw [hq] at hconv
    have hw := convertPCD_window hconv
    rw [hq]
    simp [inWindow, hw.1, hw.2]
  · cases hdv : r.life_span_date with
    | valid d => simp [validDateCell, hdv]
    | missing => simp [criticalPresent, hdv] at hcrit
    | invalid s =>
      have hpr := congrArg Row.life_span_date hcd
      simp [coerceDateRow, hdv] at hpr

/-- C8: no record whose collection contains the literal substring "HTTPS:"
survives clean_data, whatever its other fields. -/
theorem claim8_https_filtered (hist : Hist) (df out : List Row)
    (h : clean_data hist df = Except.ok out) :
    ∀ r ∈ out, ∀ s, r.collection = some s → hasSub httpsS s = false := by
  intro r hr s hs
  have hhf := (clean_out_inv h r hr).1
  simp only [httpsFilter, hs] at hhf
  simpa using hhf

/-- C9 (amended): clean_data is idempotent on every run whose output is
nonempty; the counterexample below shows the unrestricted claim fails
because a second pass over an empty output raises. -/
theorem claim9_idempotent_on_nonempty (hist : Hist) (df out : List Row)
    (h : clean_data hist df = Except.ok out) (hne : out ≠ []) :
    clean_data hist out = Except.ok out :=
  clean_fixpoint hist out (clean_out_inv h) hne

theorem norm_usd : upperL (trimL usdS) = usdS := rfl

theorem trimL_R : trimL ['R'] = ['R'] := rfl

theorem trimL_A : trimL ['A'] = ['A'] := rfl

theorem hasSub_A : hasSub httpsS ['A'] = false := rfl

theorem clean_data_rowP1_eval : clean_data histErr [rowP1] = Except.ok [] := by
  norm_num [clean_data, stage4, convert_prices_to_eur, applyConv, convert_row, convertPCD,
    histStep, fallbackStep, histErr, setOriginals, standardize, coerceDateRow,
    criticalPresent, priceNumPos, isStrPrice, httpsFilter, mkInputRow, rowP1,
    norm_usd, trimL_R, trimL_A, hasSub_A, ratesGet_usd, if_neg usd_ne_eur,
    if_neg usd_ne_eur2]

theorem clean_data_rowW_eval : clean_data histErr [rowW] = Except.ok [rowWOut] := by
  norm_num [clean_data, stage4, convert_prices_to_eur, applyConv, convert_row, convertPCD,
    histStep, fallbackStep, histErr, setOriginals, standardize, coerceDateRow,
    criticalPresent, priceNumPos, isStrPrice, httpsFilter, addTemporal, dropCols,
    quarterOf, dateA, mkInputRow, rowP1, rowW, rowWOut,
    norm_usd, trimL_R, trimL_A, hasSub_A, ratesGet_usd, if_neg usd_ne_eur,
    if_neg usd_ne_eur2]

/-- C9 counterexample: cleaning this one-row dataset succeeds and returns
the empty dataset (price 1 USD converts to 0.93 EUR, far below the
window), but running clean_data again on that output raises: the final
summary divides rows_removed by initial_rows = len(input) = 0. So
clean_data of clean_data of [rowP1] is an exception, not the ok output of
the first pass, and the unrestricted idempotence claim is false. -/
theorem claim9_counterexample :
    clean_data histErr [rowP1] = Except.ok [] ∧
    clean_data histErr ([] : List Row) = Except.error PipeErr.summaryZeroDiv := by
  constructor
  · exact clean_data_rowP1_eval
  · rfl

/-- Witness for the amended C9 at a concrete nonempty run. -/
theorem claim9_idempotent_on_nonempty_witness :
    clean_data histErr [rowWOut] = Except.ok [rowWOut] :=
  claim9_idempotent_on_nonempty histErr [rowW] [rowWOut] clean_data_rowW_eval (by simp)

/-- Witness for C7 at a concrete run. -/
theorem claim7_output_invariants_witness :
    rowWOut.price_eur.isSome = true ∧
    inWindow ((rowWOut.price_eur).getD 0) = true ∧
    priceNumPos rowWOut = true ∧
    validDateCell rowWOut = true :=
  claim7_output_invariants histErr [rowW] [rowWOut] clean_data_rowW_eval rowWOut
    (List.mem_singleton.mpr rfl)

/-- Witness for C8 at a concrete run. -/
theorem claim8_https_filtered_witness : hasSub httpsS ['A'] = false :=
  claim8_https_filtered histErr [rowW] [rowWOut] clean_data_rowW_eval rowWOut
    (List.mem_singleton.mpr rfl) ['A'] rfl
